import Mathlib

/-!
Verification of the TrendRadar-visual core logic.

Shallow embedding of:
* `src/trendradar/web/config_store.py` — the configuration mutation store
  (`deep_merge_inplace`, `ConfigStore.write_with_backup`, `ConfigStore.patch_config`,
  `ConfigStore.reset_config_to_default`, `ConfigStore.reset_words_to_default`,
  `ConfigStore.load_config_yaml`, `ConfigStore._read_default_text`), together with
  `_write_text_file_with_backup` from `src/trendradar/web/server.py`, whose body is
  line-for-line the same as `ConfigStore.write_with_backup`;
* the classification fragments of `render_html_content` in
  `src/trendradar/report/html.py` (heat buckets, rank buckets, rank labels,
  link selection);
* the greedy segmentation loop of `saveAsMultipleImages` (the JavaScript embedded in
  `src/trendradar/report/html.py`).

Modelling conventions:
* YAML documents are represented by the inductive `Yaml` below (tagged variant of
  mappings / sequences / scalars, keys restricted to strings as in the repository's
  configuration files).  File contents are modelled as parsed `Yaml` values: ruamel's
  round-trip loader/dumper is treated as the identity on this representation, so
  "text written verbatim" becomes "the same `Yaml` value written".
* The filesystem is a pure association list from path strings to contents, threaded
  explicitly.  A store operation returns, besides the new filesystem, the ordered
  list of `write_text` events it performed, so that "the backup is written before the
  destination is overwritten" is visible in the result.
* Python exceptions become `Except StoreError`; an operation that raises performs no
  filesystem writes, exactly as in the source, where `raise` precedes every
  `write_with_backup` call.
-/

/-- YAML data as loaded by ruamel: a tagged variant of scalars, sequences and
string-keyed mappings (`YamlData` in `config_store.py`).  `null` is Python's `None`. -/
inductive Yaml where
  | null : Yaml
  | bool : Bool → Yaml
  | int : Int → Yaml
  | str : String → Yaml
  | seq : List Yaml → Yaml
  | map : List (String × Yaml) → Yaml

/-- `isinstance(x, dict)` on a loaded YAML value. -/
def Yaml.isMap : Yaml → Bool
  | .map _ => true
  | _ => false

/-- `x is None` on a loaded YAML value. -/
def Yaml.isNull : Yaml → Bool
  | .null => true
  | _ => false

/-- Association-list lookup: `k in d` / `d[k]` on a Python dict (and `Path.exists` /
`read_text` on the modelled filesystem). -/
def alookup {α : Type} : List (String × α) → String → Option α
  | [], _ => none
  | (k, v) :: rest, key => if k = key then some v else alookup rest key

/-- Association-list update: `d[k] = v` on a Python dict (keeps the insertion position
of an existing key, appends a fresh key at the end — CPython dict semantics) and
`write_text` on the modelled filesystem. -/
def aset {α : Type} : List (String × α) → String → α → List (String × α)
  | [], key, v => [(key, v)]
  | (k, w) :: rest, key, v =>
    if k = key then (key, v) :: rest else (k, w) :: aset rest key v

mutual

/-- `deep_merge_inplace` from `config_store.py`, lines 32–45: if the patch is `None`
the target is returned; if both sides are mappings the merge recurses key by key;
otherwise the patch replaces the target wholesale. -/
def deep_merge_inplace : Yaml → Yaml → Yaml
  | target, .null => target
  | .map t, .map p => .map (deep_merge_entries t p)
  | _, patch => patch
termination_by _ p => sizeOf p
decreasing_by all_goals simp_wf

/-- The `for k, v in patch.items()` loop inside `deep_merge_inplace`: for each patch
key, recurse when both the existing value and the patch value are mappings, otherwise
assign the patch value. -/
def deep_merge_entries : List (String × Yaml) → List (String × Yaml) → List (String × Yaml)
  | t, [] => t
  | t, (k, v) :: rest =>
    deep_merge_entries
      (match alookup t k with
       | some tv =>
         if tv.isMap && v.isMap then aset t k (deep_merge_inplace tv v)
         else aset t k v
       | none => aset t k v)
      rest
termination_by _ p => sizeOf p
decreasing_by all_goals simp_wf <;> omega

end

/-- The modelled filesystem: a finite map from path strings to (parsed) file
contents.  `alookup fs p = none` models `not p.exists()`. -/
abbrev FS := List (String × Yaml)

/-- Errors raised by the store: `invalidDocument` is
`ValueError("Config YAML root must be a mapping")`, `invalidDefault` is
`ValueError("Default config is invalid")`, `defaultNotFound` is the
`FileNotFoundError` raised by the two reset operations. -/
inductive StoreError where
  | invalidDocument : StoreError
  | invalidDefault : StoreError
  | defaultNotFound : StoreError
deriving DecidableEq

/-- The `ConfigStore` dataclass (`config_store.py`, lines 48–53). -/
structure ConfigStore where
  config_path : String
  frequency_words_path : String
  default_config_candidates : List String
  default_words_candidates : List String

/-- The backup file name built in `write_with_backup` (`config_store.py`, line 96)
and `_write_text_file_with_backup` (`server.py`, line 231):
`path.with_suffix(path.suffix + f".bak.{ts}")` replaces the final suffix of `path`
with itself followed by `.bak.<ts>`, which always amounts to appending
`.bak.<ts>` to the full name. -/
def backupName (path ts : String) : String := path ++ ".bak." ++ ts

/-- `ConfigStore.write_with_backup` (`config_store.py`, lines 92–98), identical in
body to `_write_text_file_with_backup` (`server.py`, lines 227–233): if the
destination exists, first copy its current on-disk content to the timestamped backup
path, then overwrite the destination.  Returns the new filesystem and the ordered
list of `write_text` events ((path, content) pairs, in the order they were
performed).  Directory creation (`path.parent.mkdir`) has no observable effect in
this model. -/
def write_with_backup (fs : FS) (path ts : String) (content : Yaml) :
    FS × List (String × Yaml) :=
  match alookup fs path with
  | some old =>
    let bp := backupName path ts
    ((aset (aset fs bp old) path content), [(bp, old), (path, content)])
  | none => (aset fs path content, [(path, content)])

/-- `ConfigStore._read_default_text` (`config_store.py`, lines 65–69): return the
content of the first existing candidate path, `none` if no candidate exists. -/
def read_default_text (fs : FS) : List String → Option Yaml
  | [] => none
  | p :: rest =>
    match alookup fs p with
    | some t => some t
    | none => read_default_text fs rest

/-- `ConfigStore.load_config_yaml` (`config_store.py`, lines 77–84): read the config
file; if it is absent fall back to the first existing default candidate; if that
fails too, return the empty mapping.  (A file holding the empty string — which the
source also treats as absent — has no separate representation here, since contents
are modelled as parsed documents.) -/
def load_config_yaml (st : ConfigStore) (fs : FS) : Yaml :=
  match alookup fs st.config_path with
  | some y => y
  | none =>
    match read_default_text fs st.default_config_candidates with
    | some y => y
    | none => Yaml.map []

/-- `ConfigStore.patch_config` (`config_store.py`, lines 100–110): load the config
document, coerce a `None` root to the empty mapping, raise `invalidDocument` if the
root is not a mapping, otherwise deep-merge the patch into it and write the result
with a backup.  The `raise` precedes the `write_with_backup` call in the source, so
the error branch performs no writes. -/
def patch_config (st : ConfigStore) (fs : FS) (patch : Yaml) (ts : String) :
    Except StoreError (FS × List (String × Yaml)) :=
  match load_config_yaml st fs with
  | .null =>
    .ok (write_with_backup fs st.config_path ts (deep_merge_inplace (Yaml.map []) patch))
  | .map m =>
    .ok (write_with_backup fs st.config_path ts (deep_merge_inplace (Yaml.map m) patch))
  | _ => .error .invalidDocument

/-- The filesystem and event list observed by a caller of `patch_config`: on success
the new state, on a raised exception the untouched input state with no write events
(the source raises before any I/O). -/
def patch_config_run (st : ConfigStore) (fs : FS) (patch : Yaml) (ts : String) :
    FS × List (String × Yaml) :=
  match patch_config st fs patch ts with
  | .ok r => r
  | .error _ => (fs, [])

/-- `ConfigStore.reset_config_to_default` (`config_store.py`, lines 112–122): load
the bundled default template (first existing candidate wins), raise
`defaultNotFound` if none exists, validate that it parses to a mapping (a `None` or
non-mapping root raises `invalidDefault`), then write it verbatim with a backup. -/
def reset_config_to_default (st : ConfigStore) (fs : FS) (ts : String) :
    Except StoreError (FS × List (String × Yaml)) :=
  match read_default_text fs st.default_config_candidates with
  | none => .error .defaultNotFound
  | some d =>
    match d with
    | .map m => .ok (write_with_backup fs st.config_path ts (Yaml.map m))
    | _ => .error .invalidDefault

/-- `ConfigStore.reset_words_to_default` (`config_store.py`, lines 124–129): load the
default keyword-list template (first existing candidate wins, mere existence
suffices — no structural validation), raise `defaultNotFound` if none exists, then
write it verbatim with a backup. -/
def reset_words_to_default (st : ConfigStore) (fs : FS) (ts : String) :
    Except StoreError (FS × List (String × Yaml)) :=
  match read_default_text fs st.default_words_candidates with
  | none => .error .defaultNotFound
  | some d => .ok (write_with_backup fs st.frequency_words_path ts d)

/-- The heat-bucket class of a word group (`render_html_content`,
`html.py` lines 396–402): `"hot"` for `count >= 10`, `"warm"` for `count >= 5`,
otherwise the empty class (the spec's `none` bucket). -/
def count_class (count : Int) : String :=
  if count ≥ 10 then "hot" else if count ≥ 5 then "warm" else ""

/-- The rank-bucket class of an item (`render_html_content`, `html.py`
lines 437–443 and 521–527): `"top"` for `min_rank <= 3`, `"high"` for
`min_rank <= rank_threshold`, otherwise the empty class (the spec's `none`
bucket). -/
def rank_class (min_rank rank_threshold : Int) : String :=
  if min_rank ≤ 3 then "top" else if min_rank ≤ rank_threshold then "high" else ""

/-- `min(ranks)` for a nonempty Python list modelled as `r :: rs`. -/
def list_min (r : Int) (rs : List Int) : Int := rs.foldl min r

/-- `max(ranks)` for a nonempty Python list modelled as `r :: rs`. -/
def list_max (r : Int) (rs : List Int) : Int := rs.foldl max r

/-- The rank badge of a news item in the statistics section
(`render_html_content`, `html.py` lines 430–450): for an empty `ranks` sequence no
badge is emitted at all (`none`); otherwise the badge carries the rank class and the
rank text (`"min"` when `min == max`, else `"min-max"`). -/
def stats_rank_badge (ranks : List Int) (rank_threshold : Int) :
    Option (String × String) :=
  match ranks with
  | [] => none
  | r :: rs =>
    let min_rank := list_min r rs
    let max_rank := list_max r rs
    some (rank_class min_rank rank_threshold,
      if min_rank = max_rank then toString min_rank
      else toString min_rank ++ "-" ++ toString max_rank)

/-- The rank badge of an item in the new-titles section (`render_html_content`,
`html.py` lines 517–542): the class defaults to the empty string, and for an empty
`ranks` sequence the rank text is the sentinel `"?"`; for a single rank the text is
that rank, otherwise `"min-max"`. -/
def new_rank_badge (ranks : List Int) (rank_threshold : Int) : String × String :=
  match ranks with
  | [] => ("", "?")
  | r :: rs =>
    let min_rank := list_min r rs
    (rank_class min_rank rank_threshold,
      if rs.length = 0 then toString r
      else toString min_rank ++ "-" ++ toString (list_max r rs))

/-- The link URL chosen for an item (`render_html_content`, `html.py` lines 475 and
546): `title_data.get("mobile_url") or title_data.get("url", "")` — the mobile URL
when present and non-empty (Python truthiness), else the URL, else the empty
string.  `none` models an absent key. -/
def pick_link_url (mobile_url url : Option String) : String :=
  let m := mobile_url.getD ""
  if m ≠ "" then m else url.getD ""

/-- How an item title is rendered: as a hyperlink with an `href`, or as plain
non-link text.  HTML escaping is abstracted away (both branches escape the same
fields). -/
inductive TitleRender where
  | link : String → String → TitleRender
  | plain : String → TitleRender
deriving DecidableEq

/-- The title/link rendering of an item (`render_html_content`, `html.py` lines
473–481 and 544–552 — the two sections use identical logic): an anchor targeting the
chosen link URL when it is non-empty (Python truthiness of `if link_url:`),
otherwise a plain-text span. -/
def render_title_link (mobile_url url : Option String) (title : String) :
    TitleRender :=
  let link_url := pick_link_url mobile_url url
  if link_url ≠ "" then .link link_url title else .plain title

/-- One entry of the `elements` array built by `saveAsMultipleImages`
(`html.py` lines 681–759): the bounding geometry of a boundary candidate (the
header, the error section, a word-group header, a single news item, the new-titles
section, or the footer), relative to the container top.  `groupId` models the
`parent` word-group of a `word-header` / `news-item` element (`none` for the
ungrouped elements); the walk itself reads only `bottom`. -/
structure Elem where
  top : Int
  bottom : Int
  groupId : Option Nat
deriving DecidableEq

/-- One segment produced by `saveAsMultipleImages` (`html.py` lines 762–794):
the JavaScript object `{ start, end, height, includeHeader }` (`end` is spelled
`stop` here because `end` is a Lean keyword). -/
structure Segment where
  start : Int
  stop : Int
  height : Int
  includeHeader : Bool
deriving DecidableEq

/-- The `for (let i = 1; i < elements.length; i++)` walk of `saveAsMultipleImages`
(`html.py` lines 767–788).  `rest` is `elements[i..]`, `pB` is
`elements[i-1].bottom`, `cur` is `currentSegment` and `acc` the `segments` array:
when `element.bottom - currentSegment.start` exceeds the budget and the current
segment already holds more than the header, close the current segment at the
previous element's bottom and open a new one there; otherwise extend the current
segment to the element's bottom. -/
def segLoop (maxHeight headerHeight : Int) :
    List Elem → Int → Segment → List Segment → List Segment × Segment
  | [], _, cur, acc => (acc, cur)
  | e :: rs, pB, cur, acc =>
    if e.bottom - cur.start > maxHeight ∧ cur.height > headerHeight then
      segLoop maxHeight headerHeight rs e.bottom
        { start := pB, stop := 0, height := e.bottom - pB, includeHeader := false }
        (acc ++ [{ cur with stop := pB }])
    else
      segLoop maxHeight headerHeight rs e.bottom
        { cur with height := e.bottom - cur.start, stop := e.bottom } acc

/-- The complete segmentation of `saveAsMultipleImages` (`html.py` lines 762–794):
initialise `currentSegment = { start: 0, end: 0, height: headerHeight,
includeHeader: true }`, run the walk from `i = 1`, and finally — if the current
segment has positive height — extend it to the container's total height and emit
it. -/
def computeSegments (elements : List Elem) (maxHeight headerHeight totalHeight : Int) :
    List Segment :=
  let cur0 : Segment :=
    { start := 0, stop := 0, height := headerHeight, includeHeader := true }
  match elements with
  | [] =>
    if cur0.height > 0 then [{ cur0 with stop := totalHeight }] else []
  | e0 :: rest =>
    let r := segLoop maxHeight headerHeight rest e0.bottom cur0 []
    if r.2.height > 0 then r.1 ++ [{ r.2 with stop := totalHeight }] else r.1

/-- The `elements[0]` entry pushed at `html.py` lines 686–692: the page header,
spanning `[0, header.offsetHeight)`. -/
def headerElem (headerHeight : Int) : Elem :=
  { top := 0, bottom := headerHeight, groupId := none }

/-- Decides whether the segment list `segs`, read left to right starting at offset
`pos`, is a chain of contiguous `[start, stop)` ranges — each segment starting where
the previous one stops, never going backwards — whose union is exactly
`[pos, total)`. -/
def coversFrom (pos : Int) (segs : List Segment) (total : Int) : Bool :=
  match segs with
  | [] => pos == total
  | s :: rest => s.start == pos && decide (pos ≤ s.stop) && coversFrom s.stop rest total

/-- The extent `(min top, max bottom)` of the elements carrying group id `g` —
the on-page span of one atomic `word-group` cluster. -/
def groupSpan (elements : List Elem) (g : Nat) : Option (Int × Int) :=
  match elements.filter (fun e => e.groupId == some g) with
  | [] => none
  | e :: rs =>
    some (rs.foldl (fun a x => min a x.top) e.top,
          rs.foldl (fun a x => max a x.bottom) e.bottom)

/-- Decides whether element `e` lies inside segment `s`. -/
def elemInSeg (e : Elem) (s : Segment) : Bool :=
  decide (s.start ≤ e.top) && decide (e.bottom ≤ s.stop)

/-- Decides the amended budget property of one segment: its height is within the
budget, or all of its content apart from one final element lies within
`headerHeight` of its start — i.e. there is an offset `p` at most `headerHeight`
past `s.start` such that no boundary-candidate bottom (`bs`) falls strictly between
`p` and `s.stop`, so the overflow is due to one indivisible element. -/
def segBudgetOk (maxHeight headerHeight : Int) (bs : List Int) (s : Segment) : Bool :=
  decide (s.stop - s.start ≤ maxHeight) ||
  (s.start :: bs).any (fun p =>
    decide (s.start ≤ p) && decide (p - s.start ≤ headerHeight) &&
    bs.all (fun b => decide (b ≤ p) || decide (s.stop ≤ b)))

lemma alookup_aset_self {α : Type} (l : List (String × α)) (k : String) (v : α) :
    alookup (aset l k v) k = some v := by
  induction l with
  | nil => simp [aset, alookup]
  | cons hd tl ih =>
    obtain ⟨k', w⟩ := hd
    by_cases h : k' = k
    · simp [aset, h, alookup]
    · simp [aset, h, alookup, ih]

lemma alookup_aset_ne {α : Type} (l : List (String × α)) (k q : String) (v : α)
    (h : q ≠ k) : alookup (aset l k v) q = alookup l q := by
  have hkq : k ≠ q := fun hh => h hh.symm
  induction l with
  | nil => simp [aset, alookup, hkq]
  | cons hd tl ih =>
    obtain ⟨k', w⟩ := hd
    by_cases hk : k' = k
    · subst hk
      simp [aset, alookup, hkq]
    · by_cases hq : k' = q
      · simp [aset, hk, alookup, hq, h]
      · simp [aset, hk, alookup, hq, ih]

lemma backupName_ne (path ts : String) : backupName path ts ≠ path := by
  intro h
  have hlen := congrArg String.length h
  rw [backupName, String.length_append, String.length_append] at hlen
  have h5 : String.length ".bak." = 5 := rfl
  omega

lemma read_default_none_iff (fs : FS) (cands : List String) :
    read_default_text fs cands = none ↔ ∀ p ∈ cands, alookup fs p = none := by
  induction cands with
  | nil => simp [read_default_text]
  | cons p rest ih =>
    cases hp : alookup fs p with
    | some t => simp [read_default_text, hp]
    | none => simp [read_default_text, hp, ih]

lemma write_with_backup_read (fs : FS) (path ts : String) (c : Yaml) :
    alookup (write_with_backup fs path ts c).1 path = some c := by
  unfold write_with_backup
  cases alookup fs path <;> simp [alookup_aset_self]

/-- Claim C1: for every patch or reset operation on a managed file whose destination
exists on disk before the call, exactly one new backup file — the original name plus
a timestamp suffix — is created, holding the destination's pre-call content, and it
is written before the destination is overwritten (the event list records the writes
in order), unconditionally (no comparison of old and new content guards the backup).
Conjuncts: the event trace is exactly backup-write followed by destination-write;
the backup file holds the old content; the destination holds the new content; every
other path is untouched; the backup path is the only newly created file; and every
successful `patch_config` / `reset_config_to_default` / `reset_words_to_default`
call routes its write through `write_with_backup` on its managed path.  The
freshness hypothesis `hfresh` states that no file already bears the backup name,
i.e. the seconds-resolution timestamp is fresh. -/
theorem backup_before_write
    (fs : FS) (path ts : String) (content old : Yaml)
    (hexists : alookup fs path = some old)
    (hfresh : alookup fs (backupName path ts) = none) :
    (write_with_backup fs path ts content).2 =
        [(backupName path ts, old), (path, content)] ∧
    alookup (write_with_backup fs path ts content).1 (backupName path ts) = some old ∧
    alookup (write_with_backup fs path ts content).1 path = some content ∧
    (∀ q, q ≠ path → q ≠ backupName path ts →
      alookup (write_with_backup fs path ts content).1 q = alookup fs q) ∧
    (∀ q, alookup fs q = none →
      alookup (write_with_backup fs path ts content).1 q ≠ none →
      q = backupName path ts) ∧
    (∀ st patch fs2 evs, st.config_path = path →
      patch_config st fs patch ts = .ok (fs2, evs) →
      ∃ c, (fs2, evs) = write_with_backup fs path ts c) ∧
    (∀ st fs2 evs, st.config_path = path →
      reset_config_to_default st fs ts = .ok (fs2, evs) →
      ∃ c, (fs2, evs) = write_with_backup fs path ts c) ∧
    (∀ st fs2 evs, st.frequency_words_path = path →
      reset_words_to_default st fs ts = .ok (fs2, evs) →
      ∃ c, (fs2, evs) = write_with_backup fs path ts c) := by
  have hbp : backupName path ts ≠ path := backupName_ne path ts
  refine ⟨?_, ?_, ?_, ?_, ?_, ?_, ?_, ?_⟩
  · simp [write_with_backup, hexists]
  · simp only [write_with_backup, hexists]
    rw [alookup_aset_ne _ _ _ _ hbp]
    exact alookup_aset_self _ _ _
  · simp only [write_with_backup, hexists]
    exact alookup_aset_self _ _ _
  · intro q hq1 hq2
    simp only [write_with_backup, hexists]
    rw [alookup_aset_ne _ _ _ _ hq1, alookup_aset_ne _ _ _ _ hq2]
  · intro q hnone hnew
    by_cases hq2 : q = backupName path ts
    · exact hq2
    · by_cases hq1 : q = path
      · rw [hq1, hexists] at hnone
        exact absurd hnone (by simp)
      · exfalso
        apply hnew
        simp only [write_with_backup, hexists]
        rw [alookup_aset_ne _ _ _ _ hq1, alookup_aset_ne _ _ _ _ hq2]
        exact hnone
  · intro st patch fs2 evs hcp hok
    subst hcp
    cases hload : load_config_yaml st fs <;> simp [patch_config, hload] at hok
    · exact ⟨_, hok.symm⟩
    · exact ⟨_, hok.symm⟩
  · intro st fs2 evs hcp hok
    subst hcp
    cases hrd : read_default_text fs st.default_config_candidates with
    | none => simp [reset_config_to_default, hrd] at hok
    | some d =>
      cases d <;> simp [reset_config_to_default, hrd] at hok
      exact ⟨_, hok.symm⟩
  · intro st fs2 evs hcp hok
    subst hcp
    cases hrd : read_default_text fs st.default_words_candidates with
    | none => simp [reset_words_to_default, hrd] at hok
    | some d =>
      simp [reset_words_to_default, hrd] at hok
      exact ⟨_, hok.symm⟩

/-- Witness for `backup_before_write` at a concrete filesystem: the destination
`config.yaml` exists with an old mapping, the timestamped backup name is fresh, and
the call records the backup write before the destination write and preserves the old
content in the backup file. -/
theorem backup_before_write_witness :
    (write_with_backup [("config.yaml", Yaml.map [("retain", Yaml.int 30)])]
        "config.yaml" "20240101-000000" (Yaml.int 1)).2 =
      [(backupName "config.yaml" "20240101-000000", Yaml.map [("retain", Yaml.int 30)]),
       ("config.yaml", Yaml.int 1)] ∧
    alookup (write_with_backup [("config.yaml", Yaml.map [("retain", Yaml.int 30)])]
        "config.yaml" "20240101-000000" (Yaml.int 1)).1
        (backupName "config.yaml" "20240101-000000") =
      some (Yaml.map [("retain", Yaml.int 30)]) :=
  ⟨(backup_before_write [("config.yaml", Yaml.map [("retain", Yaml.int 30)])]
      "config.yaml" "20240101-000000" (Yaml.int 1) (Yaml.map [("retain", Yaml.int 30)])
      rfl (by simp [alookup, backupName])).1,
   (backup_before_write [("config.yaml", Yaml.map [("retain", Yaml.int 30)])]
      "config.yaml" "20240101-000000" (Yaml.int 1) (Yaml.map [("retain", Yaml.int 30)])
      rfl (by simp [alookup, backupName])).2.1⟩

/-- Claim C7: if the loaded configuration root is not a mapping (after the source's
coercion of a `None` root to the empty mapping), `patch_config` raises
`invalidDocument` and the mutation aborts atomically: the caller-observed filesystem
is unchanged and no write event — in particular no backup — is performed. -/
theorem patch_invalid_document
    (st : ConfigStore) (fs : FS) (patch : Yaml) (ts : String)
    (hroot : (load_config_yaml st fs).isNull = false ∧
             (load_config_yaml st fs).isMap = false) :
    patch_config st fs patch ts = .error .invalidDocument ∧
    patch_config_run st fs patch ts = (fs, []) := by
  obtain ⟨h1, h2⟩ := hroot
  cases hload : load_config_yaml st fs <;>
    rw [hload] at h1 h2 <;>
    simp_all [Yaml.isNull, Yaml.isMap, patch_config, patch_config_run, hload]

/-- Witness for `patch_invalid_document`: a configuration file whose root is a
sequence makes `patch_config` fail with `invalidDocument` and leave the filesystem
untouched. -/
theorem patch_invalid_document_witness :
    patch_config ⟨"config.yaml", "frequency_words.txt", [], []⟩
        [("config.yaml", Yaml.seq [])] (Yaml.map []) "20240101-000000" =
      .error .invalidDocument ∧
    patch_config_run ⟨"config.yaml", "frequency_words.txt", [], []⟩
        [("config.yaml", Yaml.seq [])] (Yaml.map []) "20240101-000000" =
      ([("config.yaml", Yaml.seq [])], []) :=
  patch_invalid_document ⟨"config.yaml", "frequency_words.txt", [], []⟩
    [("config.yaml", Yaml.seq [])] (Yaml.map []) "20240101-000000" ⟨rfl, rfl⟩

/-- Claim C8: a reset loads the default template from the first existing candidate
path (first match wins), validates that it is a mapping for the configuration
document (mere existence suffices for the keyword list), writes it verbatim, and
fails with `defaultNotFound` — without attempting any write — exactly when no
default candidate exists among the configured search locations. -/
theorem reset_default_resolution (st : ConfigStore) (fs : FS) (ts : String) :
    (reset_config_to_default st fs ts = .error .defaultNotFound ↔
      ∀ p ∈ st.default_config_candidates, alookup fs p = none) ∧
    (reset_words_to_default st fs ts = .error .defaultNotFound ↔
      ∀ p ∈ st.default_words_candidates, alookup fs p = none) ∧
    (∀ p rest d, alookup fs p = some d →
      read_default_text fs (p :: rest) = some d) ∧
    (∀ p rest, alookup fs p = none →
      read_default_text fs (p :: rest) = read_default_text fs rest) ∧
    (∀ fs2 evs, reset_config_to_default st fs ts = .ok (fs2, evs) →
      ∃ d, read_default_text fs st.default_config_candidates = some d ∧
        d.isMap = true ∧ alookup fs2 st.config_path = some d) ∧
    (∀ fs2 evs, reset_words_to_default st fs ts = .ok (fs2, evs) →
      ∃ d, read_default_text fs st.default_words_candidates = some d ∧
        alookup fs2 st.frequency_words_path = some d) := by
  refine ⟨?_, ?_, ?_, ?_, ?_, ?_⟩
  · rw [← read_default_none_iff]
    cases hrd : read_default_text fs st.default_config_candidates with
    | none => simp [reset_config_to_default, hrd]
    | some d => cases d <;> simp [reset_config_to_default, hrd]
  · rw [← read_default_none_iff]
    cases hrd : read_default_text fs st.default_words_candidates with
    | none => simp [reset_words_to_default, hrd]
    | some d => simp [reset_words_to_default, hrd]
  · intro p rest d hp
    simp [read_default_text, hp]
  · intro p rest hp
    simp [read_default_text, hp]
  · intro fs2 evs hok
    cases hrd : read_default_text fs st.default_config_candidates with
    | none => simp [reset_config_to_default, hrd] at hok
    | some d =>
      cases d <;> simp [reset_config_to_default, hrd] at hok
      refine ⟨_, rfl, rfl, ?_⟩
      have h1 := congrArg Prod.fst hok
      simp only [] at h1
      rw [← h1]
      exact write_with_backup_read fs st.config_path ts _
  · intro fs2 evs hok
    cases hrd : read_default_text fs st.default_words_candidates with
    | none => simp [reset_words_to_default, hrd] at hok
    | some d =>
      simp [reset_words_to_default, hrd] at hok
      refine ⟨d, rfl, ?_⟩
      have h1 := congrArg Prod.fst hok
      simp only [] at h1
      rw [← h1]
      exact write_with_backup_read fs st.frequency_words_path ts d

/-- Witness for `reset_default_resolution` at a concrete store whose only default
candidate for the configuration is absent while the second keyword-list candidate
exists: the configuration reset fails with `defaultNotFound` and the keyword-list
reset does not. -/
theorem reset_default_resolution_witness :
    (reset_config_to_default
        ⟨"config.yaml", "frequency_words.txt", ["missing_default.yaml"],
          ["missing_words.txt", "default_words.txt"]⟩
        [("default_words.txt", Yaml.str "ai")] "20240101-000000" =
      .error .defaultNotFound ↔
      ∀ p ∈ ["missing_default.yaml"],
        alookup [("default_words.txt", Yaml.str "ai")] p = none) ∧
    read_default_text [("default_words.txt", Yaml.str "ai")]
        ["default_words.txt", "extra.txt"] = some (Yaml.str "ai") :=
  ⟨(reset_default_resolution
      ⟨"config.yaml", "frequency_words.txt", ["missing_default.yaml"],
        ["missing_words.txt", "default_words.txt"]⟩
      [("default_words.txt", Yaml.str "ai")] "20240101-000000").1,
   (reset_default_resolution
      ⟨"config.yaml", "frequency_words.txt", ["missing_default.yaml"],
        ["missing_words.txt", "default_words.txt"]⟩
      [("default_words.txt", Yaml.str "ai")] "20240101-000000").2.2.1
      "default_words.txt" ["extra.txt"] (Yaml.str "ai") rfl⟩

/-- Claim C3: deep-merge recurses key by key exactly when both the target's and the
patch's value at a key are mappings, and otherwise the patch value replaces the
target value wholesale (arrays and scalars are never merged element-wise).
Conjuncts: merging two mappings walks the patch entries; each patch entry recurses
when both sides are mappings and assigns otherwise; a non-`null` patch that is not
merged mapping-to-mapping replaces the target wholesale; and the spec's two concrete
examples. -/
theorem deep_merge_spec :
    (∀ t p, deep_merge_inplace (Yaml.map t) (Yaml.map p) =
      Yaml.map (deep_merge_entries t p)) ∧
    (∀ t k v rest, deep_merge_entries t ((k, v) :: rest) =
      deep_merge_entries
        (match alookup t k with
         | some tv =>
           if tv.isMap && v.isMap then aset t k (deep_merge_inplace tv v)
           else aset t k v
         | none => aset t k v) rest) ∧
    (∀ target patch, patch ≠ Yaml.null →
      ¬(target.isMap = true ∧ patch.isMap = true) →
      deep_merge_inplace target patch = patch) ∧
    deep_merge_inplace
        (Yaml.map [("a", Yaml.map [("b", Yaml.int 1), ("c", Yaml.int 2)])])
        (Yaml.map [("a", Yaml.map [("b", Yaml.int 99)])]) =
      Yaml.map [("a", Yaml.map [("b", Yaml.int 99), ("c", Yaml.int 2)])] ∧
    deep_merge_inplace
        (Yaml.map [("a", Yaml.map [("b", Yaml.int 1), ("c", Yaml.int 2)])])
        (Yaml.map [("a", Yaml.seq [Yaml.int 1, Yaml.int 2])]) =
      Yaml.map [("a", Yaml.seq [Yaml.int 1, Yaml.int 2])] := by
  refine ⟨?_, ?_, ?_, ?_, ?_⟩
  · intro t p
    simp [deep_merge_inplace]
  · intro t k v rest
    simp only [deep_merge_entries]
  · intro target patch h1 h2
    cases target <;> cases patch <;> simp_all [deep_merge_inplace, Yaml.isMap]
  · simp [deep_merge_inplace, deep_merge_entries, alookup, aset, Yaml.isMap]
  · simp [deep_merge_inplace, deep_merge_entries, alookup, aset, Yaml.isMap]

/-- Witness for `deep_merge_spec`: replacing a scalar target by a sequence patch is
wholesale replacement. -/
theorem deep_merge_spec_witness :
    deep_merge_inplace (Yaml.int 0) (Yaml.seq []) = Yaml.seq [] :=
  deep_merge_spec.2.2.1 (Yaml.int 0) (Yaml.seq [])
    (by simp) (by simp [Yaml.isMap])

/-- Claim C6: the heat bucket is `hot` iff `count ≥ 10`, `warm` iff `5 ≤ count < 10`
and `none` (empty class) iff `count < 5`; the rank bucket is `top` iff
`min(ranks) ≤ 3`, `high` iff `3 < min(ranks) ≤ rank_threshold` and `none` otherwise
— including the spec's concrete boundary instances. -/
theorem bucket_boundaries :
    (∀ c : Int, count_class c = "hot" ↔ c ≥ 10) ∧
    (∀ c : Int, count_class c = "warm" ↔ 5 ≤ c ∧ c < 10) ∧
    (∀ c : Int, count_class c = "" ↔ c < 5) ∧
    (∀ m t : Int, rank_class m t = "top" ↔ m ≤ 3) ∧
    (∀ m t : Int, rank_class m t = "high" ↔ 3 < m ∧ m ≤ t) ∧
    (∀ m t : Int, rank_class m t = "" ↔ 3 < m ∧ t < m) ∧
    count_class 4 = "" ∧ count_class 5 = "warm" ∧ count_class 10 = "hot" ∧
    rank_class 3 10 = "top" ∧ rank_class 4 10 = "high" ∧ rank_class 11 10 = "" := by
  refine ⟨?_, ?_, ?_, ?_, ?_, ?_, by decide, by decide, by decide,
    by decide, by decide, by decide⟩
  · intro c
    unfold count_class
    split_ifs <;> simp_all
  · intro c
    unfold count_class
    split_ifs <;> simp_all
  · intro c
    unfold count_class
    split_ifs <;> simp_all
    omega
  · intro m t
    unfold rank_class
    split_ifs <;> simp_all
  · intro m t
    unfold rank_class
    split_ifs <;> simp_all
  · intro m t
    unfold rank_class
    split_ifs <;> simp_all

/-- Claim C9 counterexample: for an item with an empty `ranks` sequence the code
does not produce the sentinel label "unknown": the new-titles section renders the
sentinel `"?"` (with the empty rank class), and the statistics section emits no rank
badge at all. -/
theorem empty_ranks_label_cex :
    new_rank_badge [] 10 = ("", "?") ∧
    stats_rank_badge [] 10 = none ∧
    "?" ≠ "unknown" :=
  ⟨rfl, rfl, by decide⟩

/-- Claim C9 as amended: for an empty `ranks` sequence classification never crashes
(the embedded functions are total), the rank bucket is `none` (the statistics
section omits the rank badge entirely, the new-titles section uses the empty rank
class), and the explicit sentinel rank label — emitted only in the new-titles
section — is `"?"`. -/
theorem empty_ranks_amended (t : Int) :
    stats_rank_badge [] t = none ∧ new_rank_badge [] t = ("", "?") :=
  ⟨rfl, rfl⟩

/-- Claim C10: the hyperlink target of a rendered item is `mobile_url` when present
and non-empty, otherwise `url`; when both are absent or empty the title is rendered
as plain non-link text — rendering an item with no usable URL never fails (the
embedded function is total). -/
theorem title_link_selection (mobile_url url : Option String) (title : String) :
    (mobile_url.getD "" ≠ "" →
      render_title_link mobile_url url title = .link (mobile_url.getD "") title) ∧
    (mobile_url.getD "" = "" → url.getD "" ≠ "" →
      render_title_link mobile_url url title = .link (url.getD "") title) ∧
    (mobile_url.getD "" = "" → url.getD "" = "" →
      render_title_link mobile_url url title = .plain title) := by
  refine ⟨?_, ?_, ?_⟩
  · intro h1
    simp [render_title_link, pick_link_url, h1]
  · intro h1 h2
    simp [render_title_link, pick_link_url, h1, h2]
  · intro h1 h2
    simp [render_title_link, pick_link_url, h1, h2]

/-- Witness for `title_link_selection`: a present mobile URL wins, an absent mobile
URL falls back to the plain URL, and an item with no usable URL renders as plain
text. -/
theorem title_link_selection_witness :
    render_title_link (some "https://m.example/a") (some "https://example/a") "t" =
      .link "https://m.example/a" "t" ∧
    render_title_link none (some "https://example/a") "t" =
      .link "https://example/a" "t" ∧
    render_title_link (some "") none "t" = .plain "t" :=
  ⟨(title_link_selection (some "https://m.example/a") (some "https://example/a") "t").1
      (by decide),
   (title_link_selection none (some "https://example/a") "t").2.1 rfl (by decide),
   (title_link_selection (some "") none "t").2.2 rfl rfl⟩

/-- Claim C2 counterexample: the boundary candidates pushed by
`saveAsMultipleImages` are item-level, not group-level (each `news-item` is its own
element; the `parent` field is never consulted), so a word-group can be split.
Concretely — header of height 5, one word-group (id 1) made of a word-header
`[5,8)` and news items `[8,12)` and `[12,16)`, footer `[16,20)`, budget 10 — the
walk puts the group's word-header in segment `[0,8)` and its first news item in
segment `[8,16)`: the boundary 8 falls strictly inside the group's span `(5,16)`,
so the groupId appears split across two segments' ranges, refuting the claim. -/
theorem segmentation_atomicity_cex :
    computeSegments (headerElem 5 ::
        [⟨5, 8, some 1⟩, ⟨8, 12, some 1⟩, ⟨12, 16, some 1⟩, ⟨16, 20, none⟩]) 10 5 20 =
      [⟨0, 8, 8, true⟩, ⟨8, 16, 8, false⟩, ⟨16, 20, 4, false⟩] ∧
    groupSpan (headerElem 5 ::
        [⟨5, 8, some 1⟩, ⟨8, 12, some 1⟩, ⟨12, 16, some 1⟩, ⟨16, 20, none⟩]) 1 =
      some (5, 16) ∧
    elemInSeg ⟨5, 8, some 1⟩ ⟨0, 8, 8, true⟩ = true ∧
    elemInSeg ⟨8, 12, some 1⟩ ⟨8, 16, 8, false⟩ = true ∧
    ((5 : Int) < 8 ∧ (8 : Int) < 16) := by
  decide

/-- Claim C4 counterexample: with header height 5, element bottoms 10 and 10 (equal
bottoms are allowed by the render-tree's non-decreasing-offsets invariant), budget 6
and total height 11, the walk closes `[0,10)` and then drops the final segment
because its height is 0, so the emitted ranges do not cover `[0, 11)`: the union
falls short of `totalHeight`, refuting the universally quantified claim. -/
theorem segmentation_coverage_cex :
    computeSegments (headerElem 5 :: [⟨5, 10, some 1⟩, ⟨10, 10, some 1⟩]) 6 5 11 =
      [⟨0, 10, 10, true⟩] ∧
    coversFrom 0
      (computeSegments (headerElem 5 :: [⟨5, 10, some 1⟩, ⟨10, 10, some 1⟩]) 6 5 11)
      11 = false := by
  decide

/-- Claim C5 counterexample: header of height 5, one word-group (id 0) made of a
word-header `[5,8)`, an oversized news item `[8,30)` and a news item `[30,35)`,
footer `[35,40)`, budget 10.  The emitted segment `[8,30)` has height 22 > 10, yet
it does not consist of one atomic group: the only group's span is `[5,35)`, which is
not contained in `[8,30)`, and the group is in fact split across three segments
(the boundary 8 lies strictly inside its span) — refuting both the claimed
exception and the claim that an oversized group "is never split". -/
theorem segmentation_budget_cex :
    computeSegments (headerElem 5 ::
        [⟨5, 8, some 0⟩, ⟨8, 30, some 0⟩, ⟨30, 35, some 0⟩, ⟨35, 40, none⟩]) 10 5 40 =
      [⟨0, 8, 8, true⟩, ⟨8, 30, 22, false⟩, ⟨30, 40, 10, false⟩] ∧
    ((30 : Int) - 8 > 10) ∧
    groupSpan (headerElem 5 ::
        [⟨5, 8, some 0⟩, ⟨8, 30, some 0⟩, ⟨30, 35, some 0⟩, ⟨35, 40, none⟩]) 0 =
      some (5, 35) ∧
    ¬((8 : Int) ≤ 5 ∧ (35 : Int) ≤ 30) ∧
    ((5 : Int) < 8 ∧ (8 : Int) < 35) := by
  decide

lemma chain_lt_all (a : Int) (l : List Int)
    (hc : List.Chain (· < ·) a l) : ∀ b ∈ l, a < b := by
  induction l generalizing a with
  | nil => intro b hb; simp at hb
  | cons x xs ih =>
    rw [List.chain_cons] at hc
    intro b hb
    rcases List.mem_cons.mp hb with hbx | hbxs
    · exact hbx ▸ hc.1
    · exact lt_trans hc.1 (ih x hc.2 b hbxs)

lemma coversFrom_append (xs : List Segment) (a p : Int) (s : Segment)
    (hc : coversFrom a xs p = true) (hs : s.start = p) (hp : p ≤ s.stop) :
    coversFrom a (xs ++ [s]) s.stop = true := by
  induction xs generalizing a with
  | nil =>
    simp only [coversFrom, beq_iff_eq] at hc
    subst hc
    simp [coversFrom, hs, hp]
  | cons x xs ih =>
    simp only [coversFrom, List.cons_append, Bool.and_eq_true, beq_iff_eq,
      decide_eq_true_eq] at hc ⊢
    obtain ⟨⟨hx1, hx2⟩, hx3⟩ := hc
    exact ⟨⟨hx1, hx2⟩, ih x.stop hx3⟩

lemma segLoop_covers (maxH h total : Int) (rest : List Elem) :
    ∀ (pB : Int) (cur : Segment) (acc : List Segment),
    cur.height = pB - cur.start →
    0 ≤ cur.start → cur.start < pB → pB ≤ total →
    (∀ b ∈ rest.map Elem.bottom, b ≤ total) →
    List.Chain (· < ·) pB (rest.map Elem.bottom) →
    coversFrom 0 acc cur.start = true →
    0 < (segLoop maxH h rest pB cur acc).2.height ∧
    coversFrom 0 ((segLoop maxH h rest pB cur acc).1 ++
      [{ (segLoop maxH h rest pB cur acc).2 with stop := total }]) total = true := by
  induction rest with
  | nil =>
    intro pB cur acc ha h0 h1 h2 _ _ hacc
    simp only [segLoop]
    refine ⟨by omega, ?_⟩
    exact coversFrom_append acc 0 cur.start { cur with stop := total } hacc rfl
      (by show cur.start ≤ total; omega)
  | cons e rs ih =>
    intro pB cur acc ha h0 h1 h2 hbnd hchain hacc
    simp only [List.map_cons, List.chain_cons] at hchain
    simp only [List.map_cons, List.mem_cons] at hbnd
    have hpe : pB < e.bottom := hchain.1
    have hbe : e.bottom ≤ total := hbnd e.bottom (Or.inl rfl)
    simp only [segLoop]
    by_cases hsplit : e.bottom - cur.start > maxH ∧ cur.height > h
    · rw [if_pos hsplit]
      refine ih e.bottom _ _ rfl (by show (0:Int) ≤ pB; omega)
        (by show pB < e.bottom; omega) hbe
        (fun b hb => hbnd b (Or.inr hb)) hchain.2 ?_
      exact coversFrom_append acc 0 cur.start { cur with stop := pB } hacc rfl
        (by show cur.start ≤ pB; omega)
    · rw [if_neg hsplit]
      exact ih e.bottom _ _ rfl h0 (by show cur.start < e.bottom; omega) hbe
        (fun b hb => hbnd b (Or.inr hb)) hchain.2 hacc

/-- Claim C4 as amended: for geometry satisfying the render-tree invariants in the
strict form the algorithm relies on — positive header height, element bottom
offsets strictly increasing starting above the header, and a total height at least
the last bottom offset — the emitted segments chain contiguously from offset 0 to
`totalHeight`: each segment starts where the previous one ends (hence they are
non-overlapping and ordered by start) and their union is exactly
`[0, totalHeight)`.  (For degenerate geometry — repeated bottom offsets together
with a total height strictly beyond the last element — the final zero-height
segment is dropped and the union falls short, as the counterexample shows.) -/
theorem segmentation_coverage_amended
    (rest : List Elem) (h maxH total : Int)
    (h0 : 0 < h)
    (hchain : List.Chain (· < ·) h (rest.map Elem.bottom))
    (hbnd : ∀ b ∈ rest.map Elem.bottom, b ≤ total)
    (hht : h ≤ total) :
    coversFrom 0 (computeSegments (headerElem h :: rest) maxH h total) total = true := by
  have hmain := segLoop_covers maxH h total rest h
    { start := 0, stop := 0, height := h, includeHeader := true } []
    (by simp) (by simp) (by simpa using h0) hht hbnd hchain (by simp [coversFrom])
  simp only [computeSegments, headerElem]
  rw [if_pos hmain.1]
  exact hmain.2

/-- Witness for `segmentation_coverage_amended`: a two-element report (one grouped
element below the header, then the footer) with strictly increasing bottoms is
covered exactly. -/
theorem segmentation_coverage_amended_witness :
    coversFrom 0
      (computeSegments (headerElem 5 :: [⟨5, 12, some 0⟩, ⟨12, 18, none⟩]) 20 5 18)
      18 = true :=
  segmentation_coverage_amended [⟨5, 12, some 0⟩, ⟨12, 18, none⟩] 5 20 18
    (by decide)
    (by simp [List.chain_cons])
    (by intro b hb; simp at hb; omega)
    (by decide)

lemma segLoop_stops (maxH h total : Int) (bs : List Int) (rest : List Elem) :
    ∀ (pB : Int) (cur : Segment) (acc : List Segment),
    pB ∈ bs →
    (∀ e ∈ rest, e.bottom ∈ bs) →
    (∀ s ∈ acc, s.stop ∈ bs ∨ s.stop = total) →
    ∀ s ∈ (if (segLoop maxH h rest pB cur acc).2.height > 0
           then (segLoop maxH h rest pB cur acc).1 ++
             [{ (segLoop maxH h rest pB cur acc).2 with stop := total }]
           else (segLoop maxH h rest pB cur acc).1),
      s.stop ∈ bs ∨ s.stop = total := by
  induction rest with
  | nil =>
    intro pB cur acc hpB hsub hacc s hs
    simp only [segLoop] at hs
    by_cases hh : cur.height > 0
    · rw [if_pos hh] at hs
      rcases List.mem_append.mp hs with h1 | h1
      · exact hacc s h1
      · simp only [List.mem_singleton] at h1
        subst h1
        right
        rfl
    · rw [if_neg hh] at hs
      exact hacc s hs
  | cons e rs ih =>
    intro pB cur acc hpB hsub hacc s hs
    simp only [segLoop] at hs
    by_cases hsplit : e.bottom - cur.start > maxH ∧ cur.height > h
    · rw [if_pos hsplit] at hs
      refine ih e.bottom _ _ (hsub e (List.mem_cons_self e rs))
        (fun x hx => hsub x (List.mem_cons_of_mem _ hx)) ?_ s hs
      intro s2 hs2
      rcases List.mem_append.mp hs2 with h1 | h1
      · exact hacc s2 h1
      · simp only [List.mem_singleton] at h1
        subst h1
        left
        exact hpB
    · rw [if_neg hsplit] at hs
      exact ih e.bottom _ _ (hsub e (List.mem_cons_self e rs))
        (fun x hx => hsub x (List.mem_cons_of_mem _ hx)) hacc s hs

/-- Claim C2 as amended: the packing decision only ever occurs between boundary
candidates, which are item-level, not group-level — every emitted segment ends
either at the bottom offset of one of the candidate elements (the header, a
word-group header, a single news item, the error/new-titles sections, or the
footer) or, for the final segment, at the document's total height.  No boundary
falls strictly inside a single candidate element, but a word-group's own items are
separate candidates, so a group can be split between its items (as the
counterexample shows). -/
theorem segmentation_boundaries_amended
    (rest : List Elem) (h maxH total : Int) :
    ∀ s ∈ computeSegments (headerElem h :: rest) maxH h total,
      s.stop ∈ (h :: rest.map Elem.bottom) ∨ s.stop = total := by
  intro s hs
  exact segLoop_stops maxH h total (h :: rest.map Elem.bottom) rest h
    { start := 0, stop := 0, height := h, includeHeader := true } []
    (List.mem_cons_self h _)
    (fun e he => List.mem_cons_of_mem _ (List.mem_map_of_mem Elem.bottom he))
    (by simp) s hs

/-- Witness for `segmentation_boundaries_amended`: with header height 5, elements
ending at 12 and 18, and total height 18, the single emitted segment ends at a
candidate bottom (or the total height). -/
theorem segmentation_boundaries_amended_witness :
    (⟨0, 18, 18, true⟩ : Segment).stop ∈ ([5, 12, 18] : List Int) ∨
      (⟨0, 18, 18, true⟩ : Segment).stop = 18 :=
  segmentation_boundaries_amended [⟨5, 12, some 0⟩, ⟨12, 18, none⟩] 5 20 18
    ⟨0, 18, 18, true⟩ (by decide)

lemma segBudgetOk_of (maxH h : Int) (bs : List Int) (s : Segment)
    (H : s.stop - s.start ≤ maxH ∨
      ∃ p, (p = s.start ∨ p ∈ bs) ∧ s.start ≤ p ∧ p - s.start ≤ h ∧
        ∀ b ∈ bs, b ≤ p ∨ s.stop ≤ b) :
    segBudgetOk maxH h bs s = true := by
  rcases H with H | ⟨p, hp, h1, h2, h3⟩
  · simp [segBudgetOk, H]
  · unfold segBudgetOk
    rw [Bool.or_eq_true]
    right
    rw [List.any_eq_true]
    refine ⟨p, ?_, ?_⟩
    · rcases hp with rfl | hp
      · exact List.mem_cons_self _ _
      · exact List.mem_cons_of_mem _ hp
    · simp only [Bool.and_eq_true, decide_eq_true_eq, List.all_eq_true]
      refine ⟨⟨h1, h2⟩, ?_⟩
      intro b hb
      rcases h3 b hb with hle | hge
      · simp [hle]
      · simp [hge]

lemma segLoop_budget (maxH h total : Int) (bs : List Int)
    (h0 : 0 ≤ h) (rest : List Elem) :
    ∀ (pB : Int) (cur : Segment) (acc : List Segment),
    cur.height = pB - cur.start →
    cur.start ≤ pB →
    pB ∈ bs →
    (∀ e ∈ rest, e.bottom ∈ bs) →
    List.Chain (· < ·) pB (rest.map Elem.bottom) →
    (∀ b ∈ bs, b ≤ pB ∨ b ∈ rest.map Elem.bottom) →
    total = (rest.map Elem.bottom).getLastD pB →
    (cur.height > maxH →
      ∃ p, (p = cur.start ∨ p ∈ bs) ∧ cur.start ≤ p ∧ p - cur.start ≤ h ∧
        ∀ b ∈ bs, b ≤ p ∨ pB ≤ b) →
    (∀ s ∈ acc, segBudgetOk maxH h bs s = true) →
    ∀ s ∈ (if (segLoop maxH h rest pB cur acc).2.height > 0
           then (segLoop maxH h rest pB cur acc).1 ++
             [{ (segLoop maxH h rest pB cur acc).2 with stop := total }]
           else (segLoop maxH h rest pB cur acc).1),
      segBudgetOk maxH h bs s = true := by
  induction rest with
  | nil =>
    intro pB cur acc ha hb hpB _ _ _ htot hW hacc s hs
    simp only [List.map_nil, List.getLastD_nil] at htot
    simp only [segLoop] at hs
    by_cases hh : cur.height > 0
    · rw [if_pos hh] at hs
      rcases List.mem_append.mp hs with h1 | h1
      · exact hacc s h1
      · simp only [List.mem_singleton] at h1
        subst h1
        apply segBudgetOk_of
        by_cases hover : cur.height > maxH
        · right
          obtain ⟨p, hp1, hp2, hp3, hp4⟩ := hW hover
          refine ⟨p, hp1, hp2, hp3, ?_⟩
          intro b hbs
          rcases hp4 b hbs with hle | hge
          · exact Or.inl hle
          · right
            show total ≤ b
            omega
        · left
          show total - cur.start ≤ maxH
          omega
    · rw [if_neg hh] at hs
      exact hacc s hs
  | cons e rs ih =>
    intro pB cur acc ha hb hpB hsub hchain hmem htot hW hacc s hs
    simp only [List.map_cons, List.chain_cons] at hchain
    have hpe : pB < e.bottom := hchain.1
    have hallgt : ∀ b ∈ rs.map Elem.bottom, e.bottom < b := chain_lt_all _ _ hchain.2
    simp only [List.map_cons, List.getLastD_cons] at htot
    simp only [segLoop] at hs
    have hsub2 : ∀ x ∈ rs, x.bottom ∈ bs :=
      fun x hx => hsub x (List.mem_cons_of_mem _ hx)
    have hebs : e.bottom ∈ bs := hsub e (List.mem_cons_self e rs)
    have hmem2 : ∀ b ∈ bs, b ≤ e.bottom ∨ b ∈ rs.map Elem.bottom := by
      intro b hbs
      rcases hmem b hbs with h1 | h1
      · exact Or.inl (le_trans h1 (le_of_lt hpe))
      · simp only [List.map_cons, List.mem_cons] at h1
        rcases h1 with h1 | h1
        · exact Or.inl (le_of_eq h1)
        · exact Or.inr h1
    by_cases hsplit : e.bottom - cur.start > maxH ∧ cur.height > h
    · rw [if_pos hsplit] at hs
      refine ih e.bottom _ _ rfl (le_of_lt hpe) hebs hsub2 hchain.2 hmem2 htot
        ?_ ?_ s hs
      · intro _
        refine ⟨pB, Or.inl rfl, le_refl pB, by show pB - pB ≤ h; omega, ?_⟩
        intro b hbs
        rcases hmem b hbs with h1 | h1
        · exact Or.inl h1
        · right
          show e.bottom ≤ b
          simp only [List.map_cons, List.mem_cons] at h1
          rcases h1 with h1 | h1
          · omega
          · exact le_of_lt (hallgt b h1)
      · intro s2 hs2
        rcases List.mem_append.mp hs2 with h1 | h1
        · exact hacc s2 h1
        · simp only [List.mem_singleton] at h1
          subst h1
          apply segBudgetOk_of
          by_cases hover : cur.height > maxH
          · right
            obtain ⟨p, hp1, hp2, hp3, hp4⟩ := hW hover
            exact ⟨p, hp1, hp2, hp3, hp4⟩
          · left
            show pB - cur.start ≤ maxH
            omega
    · rw [if_neg hsplit] at hs
      refine ih e.bottom _ _ rfl (by show cur.start ≤ e.bottom; omega) hebs
        hsub2 hchain.2 hmem2 htot ?_ hacc s hs
      intro hover
      have hov2 : e.bottom - cur.start > maxH := hover
      have hhle : cur.height ≤ h := by
        rcases not_and_or.mp hsplit with hA | hB
        · exact absurd hov2 hA
        · omega
      refine ⟨pB, Or.inr hpB, hb, by show pB - cur.start ≤ h; omega, ?_⟩
      intro b hbs
      rcases hmem b hbs with h1 | h1
      · exact Or.inl h1
      · right
        show e.bottom ≤ b
        simp only [List.map_cons, List.mem_cons] at h1
        rcases h1 with h1 | h1
        · omega
        · exact le_of_lt (hallgt b h1)

/-- Claim C5 as amended: for geometry satisfying the render-tree invariants (bottom
offsets strictly increasing above a non-negative header height, budget at least the
header height, total height equal to the last element's bottom, as in the browser
where the container ends at the footer), every emitted segment's height is at most
the budget, except a segment whose content apart from a single final
boundary-candidate element spans at most `headerHeight` from its start — i.e. the
only over-budget segments are those carrying one oversized indivisible element (a
single news item or word-group header), possibly preceded by the header region.
The exception is per-element, not per-atomic-group: an oversized word-group is
split between its items (see the counterexample), and only a single element is
never split. -/
theorem segmentation_budget_amended
    (rest : List Elem) (h maxH total : Int)
    (h0 : 0 ≤ h) (hhm : h ≤ maxH)
    (hchain : List.Chain (· < ·) h (rest.map Elem.bottom))
    (htot : total = (rest.map Elem.bottom).getLastD h) :
    ∀ s ∈ computeSegments (headerElem h :: rest) maxH h total,
      segBudgetOk maxH h (h :: rest.map Elem.bottom) s = true := by
  intro s hs
  refine segLoop_budget maxH h total (h :: rest.map Elem.bottom) h0 rest h
    { start := 0, stop := 0, height := h, includeHeader := true } []
    (by show h = h - 0; omega) h0 (List.mem_cons_self h _)
    (fun e he => List.mem_cons_of_mem _ (List.mem_map_of_mem Elem.bottom he))
    hchain ?_ htot ?_ (by simp) s hs
  · intro b hbs
    simp only [List.mem_cons] at hbs
    rcases hbs with h1 | h1
    · exact Or.inl (le_of_eq h1)
    · exact Or.inr h1
  · intro hover
    have hov2 : h > maxH := hover
    omega

/-- Witness for `segmentation_budget_amended`: with header height 5, elements
ending at 12 and 18, budget 20 and total height 18, the single emitted segment
satisfies the amended budget bound. -/
theorem segmentation_budget_amended_witness :
    segBudgetOk 20 5 [5, 12, 18] (⟨0, 18, 18, true⟩ : Segment) = true :=
  segmentation_budget_amended [⟨5, 12, some 0⟩, ⟨12, 18, none⟩] 5 20 18
    (by decide) (by decide)
    (List.Chain.cons (by decide) (List.Chain.cons (by decide) List.Chain.nil))
    (by decide)
    ⟨0, 18, 18, true⟩ (by decide)
